import Mathlib

/-!
Shallow embedding of the XOR Diff Engine (delta-patch engine for flash-resident
binary data).  Buffers are lists of bytes (`Nat` values below 256), machine
integers are `Nat` with explicit `% 2 ^ w` where wrap-around matters, and
fallible C functions return `Except xor_diff_result_t`.  The repository ships
only the header `main_api.c` (declarations plus the inline helper
`xor_diff_fast_xor`), so the function bodies are modelled from the
specification, faithful to its words; the inline helper is translated directly
from its source.
-/

/-- Return codes of the engine, translated from the `xor_diff_result_t` enum. -/
inductive xor_diff_result_t where
  | XOR_DIFF_SUCCESS
  | XOR_DIFF_ERROR_NULL_POINTER
  | XOR_DIFF_ERROR_INVALID_SIZE
  | XOR_DIFF_ERROR_MEMORY_ALLOC
  | XOR_DIFF_ERROR_FLASH_WRITE
  | XOR_DIFF_ERROR_CHECKSUM_MISMATCH
  | XOR_DIFF_ERROR_VERSION_MISMATCH
  | XOR_DIFF_ERROR_PATCH_CORRUPT
  deriving DecidableEq, Repr

/-- Patch metadata, translated from `xor_patch_header_t`.  Fields are `Nat`
with the C widths tracked by bounds where a proof needs them
(`version`, checksums: `uint32`; sizes: 64-bit `size_t`; `compression_level`,
`flags`: `uint8`; `reserved`: `uint16`). -/
structure xor_patch_header_t where
  version : Nat
  source_checksum : Nat
  target_checksum : Nat
  patch_size : Nat
  data_size : Nat
  compression_level : Nat
  flags : Nat
  reserved : Nat
  deriving DecidableEq, Repr

/-- A patch: header plus the delta payload, translated from `xor_patch_t`. -/
structure xor_patch_t where
  header : xor_patch_header_t
  patch_data : List Nat
  deriving DecidableEq, Repr

/-- Engine configuration, translated from `xor_diff_config_t`. -/
structure xor_diff_config_t where
  block_size : Nat
  enable_compression : Bool
  enable_checksum : Bool
  flash_optimized : Bool
  write_alignment : Nat
  deriving DecidableEq, Repr

/-- Engine context, translated from `xor_diff_context_t` (the opaque
`internal_state` pointer carries no modelled behavior). -/
structure xor_diff_context_t where
  config : xor_diff_config_t
  current_version : Nat
  total_operations : Nat
  bytes_processed : Nat
  deriving DecidableEq, Repr

/-- Predicate: every element of the list is a byte value. -/
def isByteList (l : List Nat) : Prop :=
  ∀ x ∈ l, x < 256

instance (l : List Nat) : Decidable (isByteList l) := by
  unfold isByteList
  infer_instance

/-- Modelled from the spec: one bit-step of the CRC-32 of §4.1 (IEEE 802.3
polynomial, reflected form `0xEDB88320`); the body of `xor_diff_crc32` is
absent from the repository header. -/
def crc32_step (crc : Nat) : Nat :=
  if crc &&& 1 == 1 then (crc >>> 1) ^^^ 0xEDB88320 else crc >>> 1

/-- Modelled from the spec: folding one input byte into the CRC state
(eight bit-steps after XOR-ing the byte in). -/
def crc32_byte (crc b : Nat) : Nat :=
  crc32_step (crc32_step (crc32_step (crc32_step
    (crc32_step (crc32_step (crc32_step (crc32_step (crc ^^^ b))))))))

/-- Modelled from the spec: `xor_diff_crc32` of §4.1 — standard CRC-32,
init `0xFFFFFFFF`, final XOR `0xFFFFFFFF`; the body is absent from the
repository header. -/
def xor_diff_crc32 (data : List Nat) : Nat :=
  (data.foldl crc32_byte 0xFFFFFFFF) ^^^ 0xFFFFFFFF

/-- Little-endian encoding of `v` into exactly `w` bytes. -/
def leBytes : Nat → Nat → List Nat
  | 0, _ => []
  | w + 1, v => v % 256 :: leBytes w (v / 256)

/-- Little-endian decoding of a byte list. -/
def fromLE : List Nat → Nat
  | [] => 0
  | b :: rest => b + 256 * fromLE rest

/-- Length of a leading run of the byte `b`. -/
def countLeading (b : Nat) : List Nat → Nat
  | [] => 0
  | c :: rest => if c = b then countLeading b rest + 1 else 0

/-- Modelled from the spec: the RLE encoder of §4.4 (runs of a repeated byte
encoded as `(run_byte, run_length)` pairs, run length capped at one byte);
the body of `xor_patch_compress` is absent from the repository header.
Fuel-indexed so that the recursion is structural. -/
def rleCompressAux : Nat → List Nat → List Nat
  | 0, _ => []
  | _, [] => []
  | fuel + 1, b :: rest =>
    let n := min (countLeading b rest) 254
    b :: (n + 1) :: rleCompressAux fuel (rest.drop n)

/-- RLE encoding of a payload (fuel instantiated with the length). -/
def rleCompress (l : List Nat) : List Nat :=
  rleCompressAux l.length l

/-- Modelled from the spec: the RLE decoder of §4.4, failing with
`PatchCorrupt` on a malformed stream (unexpected end of run, zero run
length); the body of `xor_patch_decompress` is absent from the repository
header. -/
def rleDecompress : List Nat → Except xor_diff_result_t (List Nat)
  | [] => .ok []
  | [_] => .error .XOR_DIFF_ERROR_PATCH_CORRUPT
  | b :: n :: rest =>
    if n = 0 then .error .XOR_DIFF_ERROR_PATCH_CORRUPT
    else match rleDecompress rest with
      | .error e => .error e
      | .ok tail => .ok (List.replicate n b ++ tail)

/-- Modelled from the spec: `xor_patch_validate` of §4.2 — `patch_size`
matches the buffer actually held, `data_size` non-zero, compressed flag
(bit 0) set iff `compression_level > 0`; the body is absent from the
repository header. -/
def xor_patch_validate (p : xor_patch_t) : xor_diff_result_t :=
  if p.header.patch_size ≠ p.patch_data.length then .XOR_DIFF_ERROR_PATCH_CORRUPT
  else if p.header.data_size = 0 then .XOR_DIFF_ERROR_PATCH_CORRUPT
  else if (p.header.flags &&& 1 == 1) ≠ decide (0 < p.header.compression_level) then
    .XOR_DIFF_ERROR_PATCH_CORRUPT
  else .XOR_DIFF_SUCCESS

/-- Modelled from the spec: `xor_patch_compress` of §4.4 — RLE applied in
place, `patch_size` updated, flag bit 0 set, level recorded (binary on/off
per the design notes); the body is absent from the repository header. -/
def xor_patch_compress (p : xor_patch_t) : xor_patch_t :=
  let d := rleCompress p.patch_data
  { header := { p.header with
      patch_size := d.length
      compression_level := 1
      flags := p.header.flags ||| 1 }
    patch_data := d }

/-- Modelled from the spec: `xor_patch_decompress` of §4.4 — inverse
transform, failing with `PatchCorrupt` on a malformed stream or when the
decompressed length differs from `data_size`; the body is absent from the
repository header. -/
def xor_patch_decompress (p : xor_patch_t) : Except xor_diff_result_t xor_patch_t :=
  if p.header.flags &&& 1 == 1 then
    match rleDecompress p.patch_data with
    | .error e => .error e
    | .ok d =>
      if d.length = p.header.data_size then
        .ok { header := { p.header with
                patch_size := d.length
                compression_level := 0
                flags := p.header.flags &&& 254 }
              patch_data := d }
      else .error .XOR_DIFF_ERROR_PATCH_CORRUPT
  else .error .XOR_DIFF_ERROR_PATCH_CORRUPT

/-- Modelled from the spec: the transient decompressed delta used by
`xor_diff_apply_patch` (§4.3: a compressed patch is decompressed into a
transient copy, the stored patch is not mutated); yields the raw delta
bytes, checked to span `data_size`. -/
def effectivePayload (p : xor_patch_t) : Except xor_diff_result_t (List Nat) :=
  if p.header.flags &&& 1 == 1 then
    match rleDecompress p.patch_data with
    | .error e => .error e
    | .ok d =>
      if d.length = p.header.data_size then .ok d
      else .error .XOR_DIFF_ERROR_PATCH_CORRUPT
  else
    if p.patch_data.length = p.header.data_size then .ok p.patch_data
    else .error .XOR_DIFF_ERROR_INVALID_SIZE

/-- Modelled from the spec: the raw (pre-compression) patch produced by
`xor_diff_create_patch` of §4.3 — byte-wise XOR payload, CRC32 checksums of
both inputs, `version` taken from the context, `compression_level` 0. -/
def createRawPatch (ctx : xor_diff_context_t) (source target : List Nat) : xor_patch_t :=
  { header := { version := ctx.current_version
                source_checksum := xor_diff_crc32 source
                target_checksum := xor_diff_crc32 target
                patch_size := source.length
                data_size := source.length
                compression_level := 0
                flags := if ctx.config.enable_checksum then 2 else 0
                reserved := 0 }
    patch_data := List.zipWith Nat.xor source target }

/-- Modelled from the spec: `xor_diff_create_patch` of §4.3 — fails with
`InvalidSize` on a zero or mismatched length, builds the raw XOR patch,
optionally compresses it when the configuration enables compression,
increments `current_version` and the context counters (with the C fixed
widths); the body is absent from the repository header. -/
def xor_diff_create_patch (ctx : xor_diff_context_t) (source target : List Nat) :
    Except xor_diff_result_t (xor_diff_context_t × xor_patch_t) :=
  if source.length = 0 ∨ source.length ≠ target.length then
    .error .XOR_DIFF_ERROR_INVALID_SIZE
  else
    let raw := createRawPatch ctx source target
    let p := if ctx.config.enable_compression then xor_patch_compress raw else raw
    let ctx2 := { ctx with
      current_version := (ctx.current_version + 1) % 2 ^ 32
      total_operations := (ctx.total_operations + 1) % 2 ^ 64
      bytes_processed := (ctx.bytes_processed + source.length) % 2 ^ 64 }
    .ok (ctx2, p)

/-- Modelled from the spec: `xor_diff_apply_patch` of §4.3 — validates the
patch (`PatchCorrupt` on failure), decompresses a transient copy when the
patch is compressed, fails with `InvalidSize` on a size mismatch, and XORs
the delta into the buffer byte-for-byte; the body is absent from the
repository header. -/
def xor_diff_apply_patch (ctx : xor_diff_context_t) (p : xor_patch_t)
    (source : List Nat) : Except xor_diff_result_t (List Nat) :=
  if xor_patch_validate p ≠ .XOR_DIFF_SUCCESS then .error .XOR_DIFF_ERROR_PATCH_CORRUPT
  else match effectivePayload p with
    | .error e => .error e
    | .ok delta =>
      if source.length ≠ p.header.data_size then .error .XOR_DIFF_ERROR_INVALID_SIZE
      else .ok (List.zipWith Nat.xor source delta)

/-- Modelled from the spec: `xor_diff_apply_patch_safe` of §4.3 — with
verification on, first checks `crc32(source)` against `source_checksum`
(failing with `ChecksumMismatch`, buffer untouched), applies the patch,
then checks the result against `target_checksum`; on a post-check failure
the delta is applied a second time to restore the buffer and the call
fails with `ChecksumMismatch`.  The returned pair is (result code, final
buffer contents); the body is absent from the repository header. -/
def xor_diff_apply_patch_safe (ctx : xor_diff_context_t) (p : xor_patch_t)
    (source : List Nat) (verify_checksum : Bool) : xor_diff_result_t × List Nat :=
  if verify_checksum ∧ xor_diff_crc32 source ≠ p.header.source_checksum then
    (.XOR_DIFF_ERROR_CHECKSUM_MISMATCH, source)
  else
    match xor_diff_apply_patch ctx p source with
    | .error e => (e, source)
    | .ok applied =>
      if verify_checksum ∧ xor_diff_crc32 applied ≠ p.header.target_checksum then
        (.XOR_DIFF_ERROR_CHECKSUM_MISMATCH,
          match effectivePayload p with
          | .ok delta => List.zipWith Nat.xor applied delta
          | .error _ => applied)
      else (.XOR_DIFF_SUCCESS, applied)

/-- Modelled from the spec: `xor_diff_create_reverse_patch` of §4.3 — the
delta payload of a pure-XOR patch is direction-independent, so the reverse
patch carries the same `patch_data`; only the header checksums are
swapped; the body is absent from the repository header. -/
def xor_diff_create_reverse_patch (forward : xor_patch_t) : xor_patch_t :=
  { forward with header := { forward.header with
      source_checksum := forward.header.target_checksum
      target_checksum := forward.header.source_checksum } }

/-- Serialized header image: the fixed little-endian layout of §6,
`[version:4][source_checksum:4][target_checksum:4][patch_size:8]`
`[data_size:8][compression_level:1][flags:1][reserved:2]`. -/
def serializedHeaderBytes (h : xor_patch_header_t) : List Nat :=
  leBytes 4 h.version ++ leBytes 4 h.source_checksum ++ leBytes 4 h.target_checksum ++
  leBytes 8 h.patch_size ++ leBytes 8 h.data_size ++ leBytes 1 h.compression_level ++
  leBytes 1 h.flags ++ leBytes 2 h.reserved

/-- Serialized patch image: header bytes followed by the payload. -/
def serializedBytes (p : xor_patch_t) : List Nat :=
  serializedHeaderBytes p.header ++ p.patch_data

/-- Modelled from the spec: `xor_patch_serialize` of §4.5 — fixed layout,
failing with `InvalidSize` (writing nothing) when `buffer_size` is smaller
than the 32-byte header plus `patch_size`; the body is absent from the
repository header. -/
def xor_patch_serialize (p : xor_patch_t) (buffer_size : Nat) :
    Except xor_diff_result_t (List Nat) :=
  if buffer_size < 32 + p.header.patch_size then .error .XOR_DIFF_ERROR_INVALID_SIZE
  else .ok (serializedBytes p)

/-- Modelled from the spec: `xor_patch_deserialize` of §4.5 — reads the
fixed little-endian layout, fails with `PatchCorrupt` when the buffer is
shorter than the header or than header plus declared `patch_size`, and
runs `xor_patch_validate` on the reconstructed patch; the body is absent
from the repository header. -/
def xor_patch_deserialize (buffer : List Nat) : Except xor_diff_result_t xor_patch_t :=
  if buffer.length < 32 then .error .XOR_DIFF_ERROR_PATCH_CORRUPT
  else
    let hdr : xor_patch_header_t :=
      { version := fromLE (List.take 4 buffer)
        source_checksum := fromLE (List.take 4 (List.drop 4 buffer))
        target_checksum := fromLE (List.take 4 (List.drop 8 buffer))
        patch_size := fromLE (List.take 8 (List.drop 12 buffer))
        data_size := fromLE (List.take 8 (List.drop 20 buffer))
        compression_level := fromLE (List.take 1 (List.drop 28 buffer))
        flags := fromLE (List.take 1 (List.drop 29 buffer))
        reserved := fromLE (List.take 2 (List.drop 30 buffer)) }
    if buffer.length < 32 + hdr.patch_size then .error .XOR_DIFF_ERROR_PATCH_CORRUPT
    else
      let p : xor_patch_t :=
        { header := hdr, patch_data := List.take hdr.patch_size (List.drop 32 buffer) }
      if xor_patch_validate p ≠ .XOR_DIFF_SUCCESS then .error .XOR_DIFF_ERROR_PATCH_CORRUPT
      else .ok p

/-- Modelled from the spec: `xor_diff_apply_chain` of §4.7 — applies the
patches strictly in order; when checksum checking is enabled, verifies
before each step that the buffer's CRC32 equals that patch's
`source_checksum`, failing with `VersionMismatch` and leaving the buffer
at the intermediate state; the body is absent from the repository header.
The returned pair is (result code, final buffer contents). -/
def xor_diff_apply_chain (ctx : xor_diff_context_t) (chain : List xor_patch_t)
    (data : List Nat) : xor_diff_result_t × List Nat :=
  match chain with
  | [] => (.XOR_DIFF_SUCCESS, data)
  | p :: rest =>
    if ctx.config.enable_checksum ∧ xor_diff_crc32 data ≠ p.header.source_checksum then
      (.XOR_DIFF_ERROR_VERSION_MISMATCH, data)
    else match xor_diff_apply_patch ctx p data with
      | .error e => (e, data)
      | .ok d2 => xor_diff_apply_chain ctx rest d2

/-- Device operations issued through the abstract flash capability
(§6: write / erase callbacks), recorded per sector index. -/
inductive xor_flash_op where
  | eraseOp (sector : Nat)
  | writeOp (sector : Nat)
  deriving DecidableEq, Repr

/-- Sector indices in which a delta has at least one non-zero byte
(§4.6: an all-zero delta slice means the sector is skipped). -/
def nonzeroSectors (delta : List Nat) (sector_size : Nat) : List Nat :=
  (((List.range delta.length).filter fun i => delta.getD i 0 ≠ 0).map
    fun i => i / sector_size).dedup

/-- XOR of a delta into the front of the working copy, leaving the tail. -/
def applyDeltaAt (flash delta : List Nat) : List Nat :=
  List.zipWith Nat.xor (flash.take delta.length) delta ++ flash.drop delta.length

/-- Device operations issued for one touched sector: an erase when the
configuration requires erase-before-write, then exactly one write. -/
def batchOpsForSector (flash_optimized : Bool) (j : Nat) : List xor_flash_op :=
  (if flash_optimized then [xor_flash_op.eraseOp j] else []) ++ [xor_flash_op.writeOp j]

/-- Modelled from the spec: `xor_diff_flash_batch_apply` of §4.6 — fails
with `InvalidSize` when any patch's implied offset range exceeds
`flash_size`, unions the sectors touched by all patches before issuing any
device operation (so each touched sector receives its operations once),
applies the patches to the working copy in order, and returns the final
contents plus the device-operation trace; the body is absent from the
repository header. -/
def xor_diff_flash_batch_apply (ctx : xor_diff_context_t) (patches : List xor_patch_t)
    (flash : List Nat) (flash_size : Nat) :
    Except xor_diff_result_t (List Nat × List xor_flash_op) :=
  if patches.any fun p => flash_size < p.header.data_size then
    .error .XOR_DIFF_ERROR_INVALID_SIZE
  else match patches.mapM effectivePayload with
    | .error e => .error e
    | .ok deltas =>
      let touched := ((deltas.map fun d => nonzeroSectors d ctx.config.block_size).flatten).dedup
      let ops := touched.flatMap (batchOpsForSector ctx.config.flash_optimized)
      .ok (deltas.foldl applyDeltaAt flash, ops)

/-- One 8-byte block pass of the inline helper: the C code reinterprets the
byte stream as `uint64` words (little-endian), XORs word-wise, and stores
the words back; translated from `xor_diff_fast_xor` in `main_api.c`. -/
def xor_diff_fast_xor_blocks : Nat → List Nat → List Nat → List Nat
  | 0, _, _ => []
  | b + 1, dest, src =>
    leBytes 8 (fromLE (dest.take 8) ^^^ fromLE (src.take 8)) ++
    xor_diff_fast_xor_blocks b (dest.drop 8) (src.drop 8)

/-- Translated from the source of `xor_diff_fast_xor` in `main_api.c`
(lines 289-307): `size / 8` full 8-byte word XORs, then the remaining
`size % 8` bytes XOR-ed byte-by-byte; bytes past `size` are untouched. -/
def xor_diff_fast_xor (dest src : List Nat) (size : Nat) : List Nat :=
  let blocks := size / 8
  let remaining := size % 8
  xor_diff_fast_xor_blocks blocks dest src ++
  List.zipWith Nat.xor ((dest.drop (8 * blocks)).take remaining)
    ((src.drop (8 * blocks)).take remaining) ++
  dest.drop (8 * blocks + remaining)

/-- The naive byte-wise reference loop: `dest[i] ^= src[i]` for `i < size`,
bytes past `size` untouched. -/
def naiveXorLoop (dest src : List Nat) (size : Nat) : List Nat :=
  List.zipWith Nat.xor (dest.take size) (src.take size) ++ dest.drop size

deriving instance DecidableEq for Except

/-! Helper lemmas: byte-list XOR algebra. -/

/-- Bridge form of `Nat.xor_cancel_left` for bare `Nat.xor` applications. -/
lemma natXor_cancel_left (a b : Nat) : Nat.xor a (Nat.xor a b) = b :=
  Nat.xor_cancel_left a b

/-- Bridge form of `Nat.xor_cancel_right` for bare `Nat.xor` applications. -/
lemma natXor_cancel_right (a b : Nat) : Nat.xor (Nat.xor a b) b = a :=
  Nat.xor_cancel_right b a

/-- Bridge form of `Nat.xor_comm` for bare `Nat.xor` applications. -/
lemma natXor_comm (a b : Nat) : Nat.xor a b = Nat.xor b a :=
  Nat.xor_comm a b

/-- XOR-ing a delta into its own source recovers the target, element-wise. -/
lemma zipWith_xor_cancel_left_list (s : List Nat) :
    ∀ t : List Nat, s.length = t.length →
      List.zipWith Nat.xor s (List.zipWith Nat.xor s t) = t := by
  induction s with
  | nil =>
    intro t h
    cases t with
    | nil => rfl
    | cons b t => simp at h
  | cons a s ih =>
    intro t h
    cases t with
    | nil => simp at h
    | cons b t =>
      simp only [List.zipWith_cons_cons, natXor_cancel_left, List.cons.injEq, true_and]
      exact ih t (by simpa using h)

/-- XOR-ing a delta into the target recovers the source, element-wise. -/
lemma zipWith_xor_comm_cancel_list (s : List Nat) :
    ∀ t : List Nat, s.length = t.length →
      List.zipWith Nat.xor t (List.zipWith Nat.xor s t) = s := by
  induction s with
  | nil =>
    intro t h
    cases t with
    | nil => rfl
    | cons b t => simp at h
  | cons a s ih =>
    intro t h
    cases t with
    | nil => simp at h
    | cons b t =>
      simp only [List.zipWith_cons_cons, List.cons.injEq]
      refine ⟨by rw [natXor_comm a b, natXor_cancel_left], ih t (by simpa using h)⟩

/-- Applying the same delta twice restores the original buffer. -/
lemma zipWith_xor_cancel_right_list (s : List Nat) :
    ∀ t : List Nat, s.length = t.length →
      List.zipWith Nat.xor (List.zipWith Nat.xor s t) t = s := by
  induction s with
  | nil =>
    intro t h
    cases t with
    | nil => rfl
    | cons b t => simp at h
  | cons a s ih =>
    intro t h
    cases t with
    | nil => simp at h
    | cons b t =>
      simp only [List.zipWith_cons_cons, natXor_cancel_right, List.cons.injEq, true_and]
      exact ih t (by simpa using h)

/-- Element access of the XOR delta payload. -/
lemma zipWith_xor_getD (s : List Nat) :
    ∀ (t : List Nat) (i : Nat), i < s.length → i < t.length →
      (List.zipWith Nat.xor s t).getD i 0 = Nat.xor (s.getD i 0) (t.getD i 0) := by
  induction s with
  | nil => intro t i hi _; simp at hi
  | cons a s ih =>
    intro t i hi ht
    cases t with
    | nil => simp at ht
    | cons b t =>
      cases i with
      | zero => rfl
      | succ i =>
        simp only [List.zipWith_cons_cons, List.getD_cons_succ]
        exact ih t i (by simpa using hi) (by simpa using ht)

/-! Helper lemmas: RLE round trip. -/

/-- A run shorter than the leading-run length reassembles the list. -/
lemma replicate_append_drop (b : Nat) :
    ∀ (n : Nat) (l : List Nat), n ≤ countLeading b l →
      List.replicate n b ++ l.drop n = l := by
  intro n
  induction n with
  | zero => intro l _; simp
  | succ n ih =>
    intro l h
    cases l with
    | nil => simp [countLeading] at h
    | cons c rest =>
      by_cases hc : c = b
      · subst hc
        simp only [countLeading, if_pos rfl] at h
        have h' : n ≤ countLeading c rest := Nat.succ_le_succ_iff.mp h
        simp only [List.replicate_succ, List.cons_append, List.drop_succ_cons]
        rw [ih rest h']
      · simp [countLeading, hc] at h

/-- Fuel-general RLE round trip: decoding the encoder output recovers the
input, for any fuel at least the input length. -/
lemma rleDecompress_rleCompressAux :
    ∀ (fuel : Nat) (l : List Nat), l.length ≤ fuel →
      rleDecompress (rleCompressAux fuel l) = .ok l := by
  intro fuel
  induction fuel with
  | zero =>
    intro l h
    have hl : l = [] := List.eq_nil_of_length_eq_zero (Nat.le_zero.mp h)
    subst hl
    rfl
  | succ fuel ih =>
    intro l h
    cases l with
    | nil => rfl
    | cons b rest =>
      show rleDecompress
        (b :: (min (countLeading b rest) 254 + 1) ::
          rleCompressAux fuel (rest.drop (min (countLeading b rest) 254))) = .ok (b :: rest)
      have hrec : rleDecompress
          (rleCompressAux fuel (rest.drop (min (countLeading b rest) 254))) =
          .ok (rest.drop (min (countLeading b rest) 254)) := by
        apply ih
        calc (rest.drop (min (countLeading b rest) 254)).length
            ≤ rest.length := by simp [List.length_drop]
          _ ≤ fuel := by simpa using Nat.succ_le_succ_iff.mp h
      simp only [rleDecompress, Nat.succ_ne_zero, if_neg, hrec, if_false]
      simp only [List.replicate_succ, List.cons_append, Except.ok.injEq, List.cons.injEq,
        true_and]
      exact replicate_append_drop b _ rest (Nat.min_le_left _ _)

/-- RLE round trip at the canonical fuel. -/
lemma rleDecompress_rleCompress (l : List Nat) :
    rleDecompress (rleCompress l) = .ok l :=
  rleDecompress_rleCompressAux l.length l (Nat.le_refl _)

/-! Helper lemmas: flag bits. -/

/-- Setting bit 0 makes the low bit of the flags byte read as set. -/
lemma lor_one_and_one (f : Nat) : (f ||| 1) &&& 1 = 1 := by
  have hbit : (f ||| 1).testBit 0 = true := by
    simp [Nat.testBit_lor, Nat.testBit_one_zero]
  rw [Nat.and_one_is_mod]
  exact Nat.mod_two_eq_one_iff_testBit_zero.mpr hbit

/-- Boolean form of `lor_one_and_one`. -/
lemma lor_one_and_one_beq (f : Nat) : ((f ||| 1) &&& 1 == 1) = true := by
  rw [lor_one_and_one]
  rfl

/-! Helper lemmas: little-endian codec. -/

/-- Encoding always yields exactly `w` bytes. -/
lemma length_leBytes : ∀ (w v : Nat), (leBytes w v).length = w := by
  intro w
  induction w with
  | zero => intro v; rfl
  | succ w ih => intro v; simp [leBytes, ih]

/-- Decoding the encoding recovers values inside the width. -/
lemma fromLE_leBytes : ∀ (w v : Nat), v < 256 ^ w → fromLE (leBytes w v) = v := by
  intro w
  induction w with
  | zero =>
    intro v hv
    interval_cases v
    rfl
  | succ w ih =>
    intro v hv
    have hdiv : v / 256 < 256 ^ w := by
      rw [Nat.div_lt_iff_lt_mul (by norm_num : (0:Nat) < 256)]
      calc v < 256 ^ (w + 1) := hv
        _ = 256 ^ w * 256 := by rw [Nat.pow_succ]
    simp only [leBytes, fromLE, ih (v / 256) hdiv]
    exact Nat.mod_add_div v 256

/-- Encoded values are genuine byte lists. -/
lemma isByteList_leBytes : ∀ (w v : Nat), isByteList (leBytes w v) := by
  intro w
  induction w with
  | zero => intro v x hx; simp [leBytes] at hx
  | succ w ih =>
    intro v x hx
    simp only [leBytes, List.mem_cons] at hx
    rcases hx with h | h
    · subst h; exact Nat.mod_lt _ (by norm_num)
    · exact ih (v / 256) x h

/-- Taking the width of a leading encoded field isolates it. -/
lemma take_leBytes_append (w v : Nat) (rest : List Nat) :
    (leBytes w v ++ rest).take w = leBytes w v :=
  List.take_left' (length_leBytes w v)

/-- Dropping the width of a leading encoded field skips it. -/
lemma drop_leBytes_append (w v : Nat) (rest : List Nat) :
    (leBytes w v ++ rest).drop w = rest :=
  List.drop_left' (length_leBytes w v)

/-! Helper lemmas: validation and payload extraction for created patches. -/

/-- Flags assigned at creation have bit 0 clear. -/
lemma createRaw_flags_and_one (ctx : xor_diff_context_t) (source target : List Nat) :
    (createRawPatch ctx source target).header.flags &&& 1 = 0 := by
  simp only [createRawPatch]
  by_cases h : ctx.config.enable_checksum
  · simp [h]
  · simp [h]

/-- Validation succeeds on a freshly created raw patch of non-zero size. -/
lemma validate_createRaw (ctx : xor_diff_context_t) (source target : List Nat)
    (hnz : source.length ≠ 0) (hlen : source.length = target.length) :
    xor_patch_validate (createRawPatch ctx source target) = .XOR_DIFF_SUCCESS := by
  have hflags := createRaw_flags_and_one ctx source target
  simp only [xor_patch_validate, createRawPatch] at hflags ⊢
  rw [if_neg, if_neg, if_neg]
  · simp only [ne_eq, Nat.lt_irrefl, decide_eq_false_iff_not, Nat.not_lt, Nat.le_zero]
    rw [hflags]
    simp
  · exact hnz
  · simp only [List.length_zipWith, hlen, Nat.min_self, ne_eq]
    simp

/-- Validation succeeds on the compressed form of a patch with non-zero
`data_size`. -/
lemma validate_compress (p : xor_patch_t) (hds : p.header.data_size ≠ 0) :
    xor_patch_validate (xor_patch_compress p) = .XOR_DIFF_SUCCESS := by
  simp only [xor_patch_validate, xor_patch_compress]
  rw [if_neg (by simp), if_neg hds, if_neg]
  rw [lor_one_and_one_beq]
  simp

/-- Payload extraction on an uncompressed raw patch yields its delta. -/
lemma payload_createRaw (ctx : xor_diff_context_t) (source target : List Nat)
    (hlen : source.length = target.length) :
    effectivePayload (createRawPatch ctx source target) =
      .ok (List.zipWith Nat.xor source target) := by
  have hflags := createRaw_flags_and_one ctx source target
  simp only [effectivePayload]
  rw [if_neg (by rw [hflags]; simp)]
  rw [if_pos (by simp [createRawPatch, List.length_zipWith, hlen])]
  rfl

/-- Payload extraction on a compressed patch whose stored payload spans
`data_size` yields the original payload back. -/
lemma payload_compress (p : xor_patch_t) (hds : p.patch_data.length = p.header.data_size) :
    effectivePayload (xor_patch_compress p) = .ok p.patch_data := by
  simp only [effectivePayload, xor_patch_compress]
  rw [if_pos (by rw [lor_one_and_one_beq])]
  rw [rleDecompress_rleCompress]
  simp [hds]

/-- Payload extraction on the patch returned by `xor_diff_create_patch`,
whether or not the context enabled compression. -/
lemma payload_created (ctx : xor_diff_context_t) (source target : List Nat)
    (hlen : source.length = target.length) :
    effectivePayload
      (if ctx.config.enable_compression then xor_patch_compress (createRawPatch ctx source target)
       else createRawPatch ctx source target) =
      .ok (List.zipWith Nat.xor source target) := by
  by_cases hc : ctx.config.enable_compression
  · rw [if_pos hc, payload_compress]
    · rfl
    · simp [createRawPatch, List.length_zipWith, hlen]
  · rw [if_neg hc, payload_createRaw ctx source target hlen]

/-- Validation of the patch returned by `xor_diff_create_patch`. -/
lemma validate_created (ctx : xor_diff_context_t) (source target : List Nat)
    (hnz : source.length ≠ 0) (hlen : source.length = target.length) :
    xor_patch_validate
      (if ctx.config.enable_compression then xor_patch_compress (createRawPatch ctx source target)
       else createRawPatch ctx source target) = .XOR_DIFF_SUCCESS := by
  by_cases hc : ctx.config.enable_compression
  · rw [if_pos hc, validate_compress]
    simpa [createRawPatch] using hnz
  · rw [if_neg hc, validate_createRaw ctx source target hnz hlen]

/-- Inversion of a successful `xor_diff_create_patch` call: the input sizes
were admissible and the outputs have the modelled shape. -/
lemma create_patch_ok (ctx ctx2 : xor_diff_context_t) (S T : List Nat) (p : xor_patch_t)
    (hc : xor_diff_create_patch ctx S T = .ok (ctx2, p)) :
    S.length ≠ 0 ∧ S.length = T.length ∧
    p = (if ctx.config.enable_compression then xor_patch_compress (createRawPatch ctx S T)
         else createRawPatch ctx S T) ∧
    ctx2 = { ctx with
      current_version := (ctx.current_version + 1) % 2 ^ 32
      total_operations := (ctx.total_operations + 1) % 2 ^ 64
      bytes_processed := (ctx.bytes_processed + S.length) % 2 ^ 64 } := by
  by_cases h : S.length = 0 ∨ S.length ≠ T.length
  · rw [xor_diff_create_patch, if_pos h] at hc
    exact absurd hc (by simp)
  · push_neg at h
    rw [xor_diff_create_patch, if_neg (by push_neg; exact h)] at hc
    simp only [Except.ok.injEq, Prod.mk.injEq] at hc
    exact ⟨h.1, h.2, hc.2.symm, hc.1.symm⟩

/-- Header `data_size` of the patch returned by `xor_diff_create_patch`. -/
lemma created_data_size (ctx : xor_diff_context_t) (S T : List Nat) :
    (if ctx.config.enable_compression then xor_patch_compress (createRawPatch ctx S T)
     else createRawPatch ctx S T).header.data_size = S.length := by
  by_cases hc : ctx.config.enable_compression <;>
    simp [hc, xor_patch_compress, createRawPatch]

/-- Header `source_checksum` of the patch returned by `xor_diff_create_patch`. -/
lemma created_source_checksum (ctx : xor_diff_context_t) (S T : List Nat) :
    (if ctx.config.enable_compression then xor_patch_compress (createRawPatch ctx S T)
     else createRawPatch ctx S T).header.source_checksum = xor_diff_crc32 S := by
  by_cases hc : ctx.config.enable_compression <;>
    simp [hc, xor_patch_compress, createRawPatch]

/-- Header `target_checksum` of the patch returned by `xor_diff_create_patch`. -/
lemma created_target_checksum (ctx : xor_diff_context_t) (S T : List Nat) :
    (if ctx.config.enable_compression then xor_patch_compress (createRawPatch ctx S T)
     else createRawPatch ctx S T).header.target_checksum = xor_diff_crc32 T := by
  by_cases hc : ctx.config.enable_compression <;>
    simp [hc, xor_patch_compress, createRawPatch]

/-- Applying the patch returned by `xor_diff_create_patch` to any buffer of
the right length XORs the delta in. -/
lemma apply_created (ctx ctx2 : xor_diff_context_t) (S T B : List Nat) (p : xor_patch_t)
    (hlen : S.length = T.length) (hB : B.length = S.length)
    (hc : xor_diff_create_patch ctx S T = .ok (ctx2, p)) :
    xor_diff_apply_patch ctx2 p B = .ok (List.zipWith Nat.xor B (List.zipWith Nat.xor S T)) := by
  obtain ⟨hnz, -, hp, -⟩ := create_patch_ok ctx ctx2 S T p hc
  subst hp
  rw [xor_diff_apply_patch,
    if_neg (by rw [validate_created ctx S T hnz hlen]; simp),
    payload_created ctx S T hlen]
  simp [created_data_size ctx S T, hB]

/-- Reversal leaves every field that `xor_patch_validate` inspects alone. -/
lemma apply_reverse (ctx : xor_diff_context_t) (p : xor_patch_t) (B : List Nat) :
    xor_diff_apply_patch ctx (xor_diff_create_reverse_patch p) B =
      xor_diff_apply_patch ctx p B := rfl

/-! Witness fixtures: a concrete configuration, context and buffer pair. -/

/-- Concrete configuration used by the witness theorems. -/
def wConfig : xor_diff_config_t :=
  { block_size := 16, enable_compression := false, enable_checksum := true,
    flash_optimized := true, write_alignment := 4 }

/-- Concrete context used by the witness theorems. -/
def wCtx : xor_diff_context_t :=
  { config := wConfig, current_version := 1, total_operations := 0, bytes_processed := 0 }

/-- The context after one patch creation over four bytes. -/
def wCtx2 : xor_diff_context_t :=
  { config := wConfig, current_version := 2, total_operations := 1, bytes_processed := 4 }

/-- Concrete source buffer (the scenario of spec §8). -/
def wS : List Nat := [0x00, 0x01, 0x02, 0x03]

/-- Concrete target buffer (the scenario of spec §8). -/
def wT : List Nat := [0x00, 0x11, 0x02, 0x13]

/-- The patch created from `wS` and `wT` under `wCtx`. -/
def wP : xor_patch_t := createRawPatch wCtx wS wT

/-- Patch creation on the witness fixture succeeds with the expected outputs. -/
lemma w_create : xor_diff_create_patch wCtx wS wT = .ok (wCtx2, wP) := rfl

/-- C1: for every pair of equal-length byte buffers S and T, creating a patch
from S to T with `xor_diff_create_patch` and then applying it with
`xor_diff_apply_patch` to a buffer holding S yields exactly T, bit for bit. -/
theorem C1_create_then_apply_yields_target (ctx ctx2 : xor_diff_context_t)
    (S T : List Nat) (p : xor_patch_t) (hlen : S.length = T.length)
    (hc : xor_diff_create_patch ctx S T = .ok (ctx2, p)) :
    xor_diff_apply_patch ctx2 p S = .ok T := by
  rw [apply_created ctx ctx2 S T S p hlen rfl hc,
    zipWith_xor_cancel_left_list S T hlen]

/-- C1 witness: the concrete scenario of spec §8. -/
theorem C1_witness : xor_diff_apply_patch wCtx2 wP wS = .ok wT :=
  C1_create_then_apply_yields_target wCtx wCtx2 wS wT wP rfl w_create

/-- C3: the reverse patch produced by `xor_diff_create_reverse_patch` carries
the same `patch_data` bytes as the forward patch with only the header
checksums swapped, and applying it to a buffer holding T yields S. -/
theorem C3_reverse_patch_rollback (ctx ctx2 : xor_diff_context_t)
    (S T : List Nat) (p : xor_patch_t) (hlen : S.length = T.length)
    (hc : xor_diff_create_patch ctx S T = .ok (ctx2, p)) :
    (xor_diff_create_reverse_patch p).patch_data = p.patch_data ∧
    (xor_diff_create_reverse_patch p).header =
      { p.header with
        source_checksum := p.header.target_checksum
        target_checksum := p.header.source_checksum } ∧
    xor_diff_apply_patch ctx2 (xor_diff_create_reverse_patch p) T = .ok S := by
  refine ⟨rfl, rfl, ?_⟩
  rw [apply_reverse, apply_created ctx ctx2 S T T p hlen hlen.symm hc,
    zipWith_xor_comm_cancel_list S T hlen]

/-- C3 witness: rollback on the concrete scenario of spec §8. -/
theorem C3_witness :
    xor_diff_apply_patch wCtx2 (xor_diff_create_reverse_patch wP) wT = .ok wS :=
  (C3_reverse_patch_rollback wCtx wCtx2 wS wT wP rfl w_create).2.2

/-- C6: `xor_diff_create_patch` produces a raw patch whose payload is the
byte-wise XOR of source and target, whose checksums are the CRC32 of source
and target, whose version is the pre-call `current_version`, with
`compression_level` 0 before optional compression; and it bumps
`current_version`, `total_operations` and `bytes_processed`. -/
theorem C6_create_patch_fields (ctx : xor_diff_context_t) (S T : List Nat)
    (hlen : S.length = T.length) (hnz : S.length ≠ 0)
    (hv : ctx.current_version + 1 < 2 ^ 32)
    (hops : ctx.total_operations + 1 < 2 ^ 64)
    (hbp : ctx.bytes_processed + S.length < 2 ^ 64) :
    ∃ ctx2 p, xor_diff_create_patch ctx S T = .ok (ctx2, p) ∧
      ctx2.current_version = ctx.current_version + 1 ∧
      ctx2.total_operations = ctx.total_operations + 1 ∧
      ctx2.bytes_processed = ctx.bytes_processed + S.length ∧
      p = (if ctx.config.enable_compression then
             xor_patch_compress (createRawPatch ctx S T)
           else createRawPatch ctx S T) ∧
      (createRawPatch ctx S T).header.version = ctx.current_version ∧
      (createRawPatch ctx S T).header.source_checksum = xor_diff_crc32 S ∧
      (createRawPatch ctx S T).header.target_checksum = xor_diff_crc32 T ∧
      (createRawPatch ctx S T).header.data_size = S.length ∧
      (createRawPatch ctx S T).header.compression_level = 0 ∧
      (createRawPatch ctx S T).patch_data = List.zipWith Nat.xor S T ∧
      ∀ i, i < S.length →
        (createRawPatch ctx S T).patch_data.getD i 0 =
          Nat.xor (S.getD i 0) (T.getD i 0) := by
  have hguard : ¬(S.length = 0 ∨ S.length ≠ T.length) := by
    push_neg
    exact ⟨hnz, hlen⟩
  refine ⟨_, _, by rw [xor_diff_create_patch, if_neg hguard], ?_, ?_, ?_,
    rfl, rfl, rfl, rfl, rfl, rfl, rfl, ?_⟩
  · exact Nat.mod_eq_of_lt hv
  · exact Nat.mod_eq_of_lt hops
  · exact Nat.mod_eq_of_lt hbp
  · intro i hi
    exact zipWith_xor_getD S T i hi (hlen ▸ hi)

/-- C6 witness: the creation characterization at the concrete fixture. -/
theorem C6_witness :
    ∃ ctx2 p, xor_diff_create_patch wCtx wS wT = .ok (ctx2, p) ∧
      ctx2.current_version = wCtx.current_version + 1 ∧
      ctx2.total_operations = wCtx.total_operations + 1 ∧
      ctx2.bytes_processed = wCtx.bytes_processed + wS.length ∧
      p = (if wCtx.config.enable_compression then
             xor_patch_compress (createRawPatch wCtx wS wT)
           else createRawPatch wCtx wS wT) ∧
      (createRawPatch wCtx wS wT).header.version = wCtx.current_version ∧
      (createRawPatch wCtx wS wT).header.source_checksum = xor_diff_crc32 wS ∧
      (createRawPatch wCtx wS wT).header.target_checksum = xor_diff_crc32 wT ∧
      (createRawPatch wCtx wS wT).header.data_size = wS.length ∧
      (createRawPatch wCtx wS wT).header.compression_level = 0 ∧
      (createRawPatch wCtx wS wT).patch_data = List.zipWith Nat.xor wS wT ∧
      ∀ i, i < wS.length →
        (createRawPatch wCtx wS wT).patch_data.getD i 0 =
          Nat.xor (wS.getD i 0) (wT.getD i 0) :=
  C6_create_patch_fields wCtx wS wT rfl (by decide) (by decide) (by decide)
    (by decide)

/-- C4: for every patch with an uncompressed payload spanning `data_size`
(including the empty payload), `xor_patch_compress` followed by
`xor_patch_decompress` reproduces the original `patch_data` bytes and
`patch_size` exactly. -/
theorem C4_compress_decompress_roundtrip (p : xor_patch_t)
    (hps : p.header.patch_size = p.patch_data.length)
    (hds : p.header.data_size = p.patch_data.length) :
    ∃ q, xor_patch_decompress (xor_patch_compress p) = .ok q ∧
      q.patch_data = p.patch_data ∧
      q.header.patch_size = p.header.patch_size := by
  simp only [xor_patch_decompress, xor_patch_compress]
  rw [if_pos (by rw [lor_one_and_one_beq])]
  rw [rleDecompress_rleCompress]
  simp only []
  rw [if_pos hds.symm]
  exact ⟨_, rfl, rfl, hps.symm⟩

/-- An uncompressed one-byte patch used by the compression witnesses. -/
def wRaw : xor_patch_t :=
  { header := { version := 7, source_checksum := 11, target_checksum := 13,
                patch_size := 1, data_size := 1, compression_level := 0,
                flags := 2, reserved := 3 }
    patch_data := [9] }

/-- The compressed form of `wRaw`. -/
def wComp : xor_patch_t := xor_patch_compress wRaw

/-- C4 witness: the round trip at an empty-payload patch. -/
theorem C4_witness :
    ∃ q, xor_patch_decompress (xor_patch_compress
        { header := { version := 0, source_checksum := 0, target_checksum := 0,
                      patch_size := 0, data_size := 0, compression_level := 0,
                      flags := 0, reserved := 0 }
          patch_data := [] }) = .ok q ∧
      q.patch_data = ([] : List Nat) ∧
      q.header.patch_size = 0 :=
  C4_compress_decompress_roundtrip _ rfl rfl

/-- C7: `data_size`, `source_checksum` and `target_checksum` (together with
`version` and `reserved`) are invariant under `xor_patch_compress` and
`xor_patch_decompress`; only `patch_data`, `patch_size`, flag bit 0 and
`compression_level` change. -/
theorem C7_header_invariant_under_compression (p q : xor_patch_t) :
    (xor_patch_compress p).header.data_size = p.header.data_size ∧
    (xor_patch_compress p).header.source_checksum = p.header.source_checksum ∧
    (xor_patch_compress p).header.target_checksum = p.header.target_checksum ∧
    (xor_patch_compress p).header.version = p.header.version ∧
    (xor_patch_compress p).header.reserved = p.header.reserved ∧
    (xor_patch_compress p).header.flags = p.header.flags ||| 1 ∧
    (xor_patch_compress p).header.compression_level = 1 ∧
    (xor_patch_decompress p = .ok q →
      q.header.data_size = p.header.data_size ∧
      q.header.source_checksum = p.header.source_checksum ∧
      q.header.target_checksum = p.header.target_checksum ∧
      q.header.version = p.header.version ∧
      q.header.reserved = p.header.reserved ∧
      q.header.flags = p.header.flags &&& 254 ∧
      q.header.compression_level = 0) := by
  refine ⟨rfl, rfl, rfl, rfl, rfl, rfl, rfl, ?_⟩
  intro h
  by_cases hf : (p.header.flags &&& 1 == 1) = true
  · rw [xor_patch_decompress, if_pos hf] at h
    cases hd : rleDecompress p.patch_data with
    | error e =>
      rw [hd] at h
      exact absurd h (by simp)
    | ok d =>
      simp only [hd] at h
      by_cases hl : d.length = p.header.data_size
      · rw [if_pos hl] at h
        injection h with h2
        subst h2
        exact ⟨rfl, rfl, rfl, rfl, rfl, rfl, rfl⟩
      · rw [if_neg hl] at h
        exact absurd h (by simp)
  · rw [xor_patch_decompress, if_neg hf] at h
    exact absurd h (by simp)

/-- C7 witness: decompressing the compressed one-byte patch restores it. -/
theorem C7_witness : wRaw.header.data_size = wComp.header.data_size :=
  (((C7_header_invariant_under_compression wComp wRaw).2.2.2.2.2.2.2) rfl).1.symm |>.trans rfl

/-- C2 (amended): with `verify_checksum = true`, `xor_diff_apply_patch_safe`
on a patch created from S to T is all-or-nothing — a source-checksum
mismatch fails with `ChecksumMismatch` leaving the buffer untouched, any
`ChecksumMismatch` outcome leaves the buffer at its pre-call state, a
success outcome leaves a buffer whose CRC32 equals `target_checksum`, and
on a buffer holding S exactly it succeeds with the buffer equal to T. -/
theorem C2_apply_safe_all_or_nothing (ctx ctx2 : xor_diff_context_t)
    (S T B : List Nat) (p : xor_patch_t)
    (hlen : S.length = T.length) (hB : B.length = S.length)
    (hc : xor_diff_create_patch ctx S T = .ok (ctx2, p)) :
    (xor_diff_crc32 B ≠ p.header.source_checksum →
      xor_diff_apply_patch_safe ctx2 p B true =
        (.XOR_DIFF_ERROR_CHECKSUM_MISMATCH, B)) ∧
    ((xor_diff_apply_patch_safe ctx2 p B true).1 = .XOR_DIFF_ERROR_CHECKSUM_MISMATCH →
      (xor_diff_apply_patch_safe ctx2 p B true).2 = B) ∧
    ((xor_diff_apply_patch_safe ctx2 p B true).1 = .XOR_DIFF_SUCCESS →
      xor_diff_crc32 (xor_diff_apply_patch_safe ctx2 p B true).2 =
        p.header.target_checksum) ∧
    (B = S → xor_diff_apply_patch_safe ctx2 p B true = (.XOR_DIFF_SUCCESS, T)) := by
  obtain ⟨hnz, -, hp, -⟩ := create_patch_ok ctx ctx2 S T p hc
  have hδlen : (List.zipWith Nat.xor S T).length = S.length := by
    simp [List.length_zipWith, hlen]
  have happly : xor_diff_apply_patch ctx2 p B =
      .ok (List.zipWith Nat.xor B (List.zipWith Nat.xor S T)) :=
    apply_created ctx ctx2 S T B p hlen hB hc
  have hpayload : effectivePayload p = .ok (List.zipWith Nat.xor S T) := by
    rw [hp]
    exact payload_created ctx S T hlen
  have hsc : p.header.source_checksum = xor_diff_crc32 S := by
    rw [hp]
    exact created_source_checksum ctx S T
  have htc : p.header.target_checksum = xor_diff_crc32 T := by
    rw [hp]
    exact created_target_checksum ctx S T
  by_cases hpre : xor_diff_crc32 B = p.header.source_checksum
  · by_cases hpost : xor_diff_crc32 (List.zipWith Nat.xor B (List.zipWith Nat.xor S T)) =
        p.header.target_checksum
    · have hsafe : xor_diff_apply_patch_safe ctx2 p B true =
          (.XOR_DIFF_SUCCESS, List.zipWith Nat.xor B (List.zipWith Nat.xor S T)) := by
        rw [xor_diff_apply_patch_safe, if_neg (fun hcon => hcon.2 hpre)]
        simp only [happly]
        rw [if_neg (fun hcon => hcon.2 hpost)]
      refine ⟨fun hne => absurd hpre hne, fun h1 => ?_, fun _ => ?_, fun hBS => ?_⟩
      · rw [hsafe] at h1
        exact absurd h1 (by simp)
      · rw [hsafe]
        exact hpost
      · rw [hsafe, hBS, zipWith_xor_cancel_left_list S T hlen]
    · have hrestore : List.zipWith Nat.xor
          (List.zipWith Nat.xor B (List.zipWith Nat.xor S T)) (List.zipWith Nat.xor S T) = B :=
        zipWith_xor_cancel_right_list B (List.zipWith Nat.xor S T) (by rw [hδlen, hB])
      have hsafe : xor_diff_apply_patch_safe ctx2 p B true =
          (.XOR_DIFF_ERROR_CHECKSUM_MISMATCH, B) := by
        rw [xor_diff_apply_patch_safe, if_neg (fun hcon => hcon.2 hpre)]
        simp only [happly]
        rw [if_pos ⟨trivial, hpost⟩]
        simp only [hpayload]
        rw [hrestore]
      refine ⟨fun hne => absurd hpre hne, fun _ => by rw [hsafe], fun h1 => ?_, fun hBS => ?_⟩
      · rw [hsafe] at h1
        exact absurd h1 (by simp)
      · rw [hBS, zipWith_xor_cancel_left_list S T hlen] at hpost
        exact absurd htc.symm hpost
  · have hsafe : xor_diff_apply_patch_safe ctx2 p B true =
        (.XOR_DIFF_ERROR_CHECKSUM_MISMATCH, B) := by
      rw [xor_diff_apply_patch_safe, if_pos ⟨rfl, hpre⟩]
    refine ⟨fun _ => hsafe, fun _ => by rw [hsafe], fun h1 => ?_, fun hBS => ?_⟩
    · rw [hsafe] at h1
      exact absurd h1 (by simp)
    · exact absurd (by rw [hBS, hsc]) hpre

set_option maxRecDepth 100000 in
/-- C2 witness: the honest scenario succeeds and hands back the target. -/
theorem C2_witness :
    xor_diff_apply_patch_safe wCtx2 wP wS true = (.XOR_DIFF_SUCCESS, wT) :=
  (C2_apply_safe_all_or_nothing wCtx wCtx2 wS wT wS wP rfl rfl w_create).2.2.2 rfl

/-- The eight bytes of the ASCII string `plumless`. -/
def cexS : List Nat := [0x70, 0x6c, 0x75, 0x6d, 0x6c, 0x65, 0x73, 0x73]

/-- The eight bytes of the ASCII string `buckeroo` — a classic CRC32
collision partner of `plumless` (both hash to `0x4DDB0C25`). -/
def cexB : List Nat := [0x62, 0x75, 0x63, 0x6b, 0x65, 0x72, 0x6f, 0x6f]

/-- The post-creation context of the collision scenario. -/
def cexCtx2 : xor_diff_context_t :=
  { config := wConfig, current_version := 2, total_operations := 1, bytes_processed := 8 }

/-- The patch taking `cexS` to `cexB`. -/
def cexP : xor_patch_t := createRawPatch wCtx cexS cexB

set_option maxRecDepth 1000000 in
/-- C2 counterexample: the claim asserts that whenever
`xor_diff_apply_patch_safe` returns success the buffer equals the original
target bit-for-bit.  Applying the patch from `cexS` to `cexB` to a buffer
holding `cexB` (whose CRC32 collides with that of `cexS`) passes both
checksum checks, returns success, and leaves the buffer different from the
original target `cexB`. -/
theorem C2_counterexample :
    xor_diff_create_patch wCtx cexS cexB = .ok (cexCtx2, cexP) ∧
    (xor_diff_apply_patch_safe cexCtx2 cexP cexB true).1 = .XOR_DIFF_SUCCESS ∧
    (xor_diff_apply_patch_safe cexCtx2 cexP cexB true).2 ≠ cexB := by
  refine ⟨by decide, by decide, by decide⟩

/-- The RLE decoder never fails with the success code. -/
lemma rleDecompress_ne_error_success :
    ∀ l : List Nat, rleDecompress l ≠ .error .XOR_DIFF_SUCCESS
  | [] => by simp [rleDecompress]
  | [x] => by simp [rleDecompress]
  | b :: n :: rest => by
    simp only [rleDecompress]
    by_cases hn : n = 0
    · simp [hn]
    · rw [if_neg hn]
      cases hr : rleDecompress rest with
      | error e =>
        have hne := rleDecompress_ne_error_success rest
        rw [hr] at hne
        intro hcon
        injection hcon with h2
        exact hne (by rw [h2])
      | ok tail => simp

/-- Payload extraction never fails with the success code. -/
lemma effectivePayload_ne_error_success (p : xor_patch_t) :
    effectivePayload p ≠ .error .XOR_DIFF_SUCCESS := by
  rw [effectivePayload]
  by_cases hf : (p.header.flags &&& 1 == 1) = true
  · rw [if_pos hf]
    cases hr : rleDecompress p.patch_data with
    | error e =>
      have hne := rleDecompress_ne_error_success p.patch_data
      rw [hr] at hne
      intro hcon
      injection hcon with h2
      exact hne (by rw [h2])
    | ok d =>
      by_cases hl : d.length = p.header.data_size
      · simp [hl]
      · simp [hl]
  · rw [if_neg hf]
    by_cases hl : p.patch_data.length = p.header.data_size
    · simp [hl]
    · simp [hl]

/-- Patch application never fails with the success code. -/
lemma apply_patch_ne_error_success (ctx : xor_diff_context_t) (p : xor_patch_t)
    (d : List Nat) : xor_diff_apply_patch ctx p d ≠ .error .XOR_DIFF_SUCCESS := by
  rw [xor_diff_apply_patch]
  by_cases hv : xor_patch_validate p ≠ .XOR_DIFF_SUCCESS
  · simp [hv]
  · rw [if_neg hv]
    cases he : effectivePayload p with
    | error e =>
      have hne := effectivePayload_ne_error_success p
      rw [he] at hne
      intro hcon
      injection hcon with h2
      exact hne (by rw [h2])
    | ok delta =>
      by_cases hl : d.length ≠ p.header.data_size
      · simp [hl]
      · simp [hl]

/-- Chain application composes over a successfully applied prefix. -/
lemma apply_chain_append_ok (ctx : xor_diff_context_t) :
    ∀ (c1 : List xor_patch_t) (data d2 : List Nat),
      xor_diff_apply_chain ctx c1 data = (.XOR_DIFF_SUCCESS, d2) →
      ∀ l2, xor_diff_apply_chain ctx (c1 ++ l2) data = xor_diff_apply_chain ctx l2 d2 := by
  intro c1
  induction c1 with
  | nil =>
    intro data d2 h l2
    rw [xor_diff_apply_chain] at h
    injection h with h1 h2
    rw [List.nil_append, h2]
  | cons p rest ih =>
    intro data d2 h l2
    rw [List.cons_append]
    rw [xor_diff_apply_chain] at h
    rw [xor_diff_apply_chain]
    by_cases hck : ctx.config.enable_checksum ∧ xor_diff_crc32 data ≠ p.header.source_checksum
    · rw [if_pos hck] at h
      injection h with h1 h2
      exact absurd h1 (by simp)
    · rw [if_neg hck] at h ⊢
      cases ha : xor_diff_apply_patch ctx p data with
      | error e =>
        rw [ha] at h
        injection h with h1 h2
        have hne := apply_patch_ne_error_success ctx p data
        rw [ha, h1] at hne
        exact absurd rfl hne
      | ok dd =>
        rw [ha] at h
        exact ih dd d2 h l2

/-- C9: `xor_diff_apply_chain` applies the patches strictly in order, and
with checksum checking enabled a step whose `source_checksum` does not match
the buffer's current CRC32 fails with `VersionMismatch`, leaving the buffer
at the intermediate state produced by the prior successful steps. -/
theorem C9_chain_order_and_mismatch (ctx : xor_diff_context_t)
    (c1 : List xor_patch_t) (p : xor_patch_t) (rest : List xor_patch_t)
    (data d2 : List Nat) (hck : ctx.config.enable_checksum = true)
    (h1 : xor_diff_apply_chain ctx c1 data = (.XOR_DIFF_SUCCESS, d2))
    (h2 : xor_diff_crc32 d2 ≠ p.header.source_checksum) :
    (∀ l2, xor_diff_apply_chain ctx (c1 ++ l2) data = xor_diff_apply_chain ctx l2 d2) ∧
    xor_diff_apply_chain ctx (c1 ++ p :: rest) data =
      (.XOR_DIFF_ERROR_VERSION_MISMATCH, d2) := by
  have hcomp := apply_chain_append_ok ctx c1 data d2 h1
  refine ⟨hcomp, ?_⟩
  rw [hcomp (p :: rest), xor_diff_apply_chain, if_pos ⟨hck, h2⟩]

/-- First chain-witness buffer (version 0). -/
def wV0 : List Nat := [1, 2]

/-- Second chain-witness buffer (version 1). -/
def wV1 : List Nat := [1, 3]

/-- The honest first chain step, taking `wV0` to `wV1`. -/
def wP1 : xor_patch_t := createRawPatch wCtx wV0 wV1

/-- A second chain step whose `source_checksum` does not match `wV1`
(simulating corruption of the buffer before step 2). -/
def wP2 : xor_patch_t :=
  { header := { version := 0, source_checksum := 0, target_checksum := 0,
                patch_size := 2, data_size := 2, compression_level := 0,
                flags := 0, reserved := 0 }
    patch_data := [1, 1] }

set_option maxRecDepth 100000 in
/-- C9 witness: a two-step chain stops at the corrupted second step with
`VersionMismatch` and the buffer left at the intermediate state `wV1`. -/
theorem C9_witness :
    xor_diff_apply_chain wCtx ([wP1] ++ wP2 :: []) wV0 =
      (.XOR_DIFF_ERROR_VERSION_MISMATCH, wV1) :=
  (C9_chain_order_and_mismatch wCtx [wP1] wP2 [] wV0 wV1 rfl (by decide) (by decide)).2

/-- The C fixed widths of the header fields, as numeric bounds. -/
def headerInBounds (h : xor_patch_header_t) : Prop :=
  h.version < 2 ^ 32 ∧ h.source_checksum < 2 ^ 32 ∧ h.target_checksum < 2 ^ 32 ∧
  h.patch_size < 2 ^ 64 ∧ h.data_size < 2 ^ 64 ∧ h.compression_level < 2 ^ 8 ∧
  h.flags < 2 ^ 8 ∧ h.reserved < 2 ^ 16

instance (h : xor_patch_header_t) : Decidable (headerInBounds h) := by
  unfold headerInBounds
  infer_instance

/-- Successful validation pins `patch_size` to the held buffer length. -/
lemma validate_success_patch_size (p : xor_patch_t)
    (h : xor_patch_validate p = .XOR_DIFF_SUCCESS) :
    p.header.patch_size = p.patch_data.length := by
  by_contra hne
  rw [xor_patch_validate, if_pos hne] at h
  exact absurd h (by simp)

/-- Byte length of a serialized patch. -/
lemma length_serializedBytes (p : xor_patch_t) :
    (serializedBytes p).length = 32 + p.patch_data.length := by
  simp [serializedBytes, serializedHeaderBytes, List.length_append, length_leBytes]
  omega

/-- C5: serialization uses the fixed little-endian layout
`[version:4][source_checksum:4][target_checksum:4][patch_size:8][data_size:8]`
`[compression_level:1][flags:1][reserved:2][payload]`; for every valid patch,
`xor_patch_deserialize` applied to the output of `xor_patch_serialize`
reproduces the header fields and payload exactly, and serialization fails
with `InvalidSize` writing nothing when `buffer_size` is insufficient. -/
theorem C5_serialize_roundtrip (p : xor_patch_t) (buffer_size : Nat)
    (hval : xor_patch_validate p = .XOR_DIFF_SUCCESS)
    (hb : headerInBounds p.header)
    (hbuf : 32 + p.header.patch_size ≤ buffer_size) :
    xor_patch_serialize p buffer_size = .ok (serializedBytes p) ∧
    xor_patch_deserialize (serializedBytes p) = .ok p ∧
    ∀ bs, bs < 32 + p.header.patch_size →
      xor_patch_serialize p bs = .error .XOR_DIFF_ERROR_INVALID_SIZE := by
  have hps := validate_success_patch_size p hval
  obtain ⟨⟨ver, sc, tc, ps, ds, cl, fl, rv⟩, data⟩ := p
  obtain ⟨hb1, hb2, hb3, hb4, hb5, hb6, hb7, hb8⟩ := hb
  have hps' : ps = data.length := hps
  have hbuf' : 32 + ps ≤ buffer_size := hbuf
  refine ⟨?_, ?_, ?_⟩
  · rw [xor_patch_serialize, if_neg (by push_neg; exact hbuf')]
  · set buf := serializedBytes ⟨⟨ver, sc, tc, ps, ds, cl, fl, rv⟩, data⟩ with hbufdef
    have e : buf = leBytes 4 ver ++ (leBytes 4 sc ++ (leBytes 4 tc ++ (leBytes 8 ps ++
        (leBytes 8 ds ++ (leBytes 1 cl ++ (leBytes 1 fl ++ (leBytes 2 rv ++ data))))))) := by
      rw [hbufdef]
      simp [serializedBytes, serializedHeaderBytes, List.append_assoc]
    have hlen : buf.length = 32 + data.length := length_serializedBytes _
    have d04 : buf.drop 4 = leBytes 4 sc ++ (leBytes 4 tc ++ (leBytes 8 ps ++
        (leBytes 8 ds ++ (leBytes 1 cl ++ (leBytes 1 fl ++ (leBytes 2 rv ++ data)))))) := by
      rw [e]
      exact drop_leBytes_append _ _ _
    have d08 : buf.drop 8 = leBytes 4 tc ++ (leBytes 8 ps ++ (leBytes 8 ds ++
        (leBytes 1 cl ++ (leBytes 1 fl ++ (leBytes 2 rv ++ data))))) := by
      have h : buf.drop 8 = (buf.drop 4).drop 4 := by simp
      rw [h, d04]
      exact drop_leBytes_append _ _ _
    have d12 : buf.drop 12 = leBytes 8 ps ++ (leBytes 8 ds ++ (leBytes 1 cl ++
        (leBytes 1 fl ++ (leBytes 2 rv ++ data)))) := by
      have h : buf.drop 12 = (buf.drop 8).drop 4 := by simp
      rw [h, d08]
      exact drop_leBytes_append _ _ _
    have d20 : buf.drop 20 = leBytes 8 ds ++ (leBytes 1 cl ++ (leBytes 1 fl ++
        (leBytes 2 rv ++ data))) := by
      have h : buf.drop 20 = (buf.drop 12).drop 8 := by simp
      rw [h, d12]
      exact drop_leBytes_append _ _ _
    have d28 : buf.drop 28 = leBytes 1 cl ++ (leBytes 1 fl ++ (leBytes 2 rv ++ data)) := by
      have h : buf.drop 28 = (buf.drop 20).drop 8 := by simp
      rw [h, d20]
      exact drop_leBytes_append _ _ _
    have d29 : buf.drop 29 = leBytes 1 fl ++ (leBytes 2 rv ++ data) := by
      have h : buf.drop 29 = (buf.drop 28).drop 1 := by simp
      rw [h, d28]
      exact drop_leBytes_append _ _ _
    have d30 : buf.drop 30 = leBytes 2 rv ++ data := by
      have h : buf.drop 30 = (buf.drop 29).drop 1 := by simp
      rw [h, d29]
      exact drop_leBytes_append _ _ _
    have d32 : buf.drop 32 = data := by
      have h : buf.drop 32 = (buf.drop 30).drop 2 := by simp
      rw [h, d30]
      exact drop_leBytes_append _ _ _
    have t00 : fromLE (buf.take 4) = ver := by
      rw [e, take_leBytes_append]
      exact fromLE_leBytes 4 ver (by
        have h4 : (256 : Nat) ^ 4 = 2 ^ 32 := by norm_num
        rw [h4]
        exact hb1)
    have t04 : fromLE ((buf.drop 4).take 4) = sc := by
      rw [d04, take_leBytes_append]
      exact fromLE_leBytes 4 sc (by
        have h4 : (256 : Nat) ^ 4 = 2 ^ 32 := by norm_num
        rw [h4]
        exact hb2)
    have t08 : fromLE ((buf.drop 8).take 4) = tc := by
      rw [d08, take_leBytes_append]
      exact fromLE_leBytes 4 tc (by
        have h4 : (256 : Nat) ^ 4 = 2 ^ 32 := by norm_num
        rw [h4]
        exact hb3)
    have t12 : fromLE ((buf.drop 12).take 8) = ps := by
      rw [d12, take_leBytes_append]
      exact fromLE_leBytes 8 ps (by
        have h8 : (256 : Nat) ^ 8 = 2 ^ 64 := by norm_num
        rw [h8]
        exact hb4)
    have t20 : fromLE ((buf.drop 20).take 8) = ds := by
      rw [d20, take_leBytes_append]
      exact fromLE_leBytes 8 ds (by
        have h8 : (256 : Nat) ^ 8 = 2 ^ 64 := by norm_num
        rw [h8]
        exact hb5)
    have t28 : fromLE ((buf.drop 28).take 1) = cl := by
      rw [d28, take_leBytes_append]
      exact fromLE_leBytes 1 cl (by
        have h1 : (256 : Nat) ^ 1 = 2 ^ 8 := by norm_num
        rw [h1]
        exact hb6)
    have t29 : fromLE ((buf.drop 29).take 1) = fl := by
      rw [d29, take_leBytes_append]
      exact fromLE_leBytes 1 fl (by
        have h1 : (256 : Nat) ^ 1 = 2 ^ 8 := by norm_num
        rw [h1]
        exact hb7)
    have t30 : fromLE ((buf.drop 30).take 2) = rv := by
      rw [d30, take_leBytes_append]
      exact fromLE_leBytes 2 rv (by
        have h2 : (256 : Nat) ^ 2 = 2 ^ 16 := by norm_num
        rw [h2]
        exact hb8)
    simp only [xor_patch_deserialize]
    rw [t00, t04, t08, t12, t20, t28, t29, t30, d32]
    rw [hps'] at hval ⊢
    rw [List.take_length]
    rw [if_neg (by rw [hlen]; omega), if_neg (by rw [hlen]; omega), if_neg (by rw [hval]; simp)]
  · intro bs hbs
    rw [xor_patch_serialize, if_pos hbs]

set_option maxRecDepth 100000 in
/-- C5 witness: round trip of the concrete one-byte patch `wRaw`. -/
theorem C5_witness : xor_patch_deserialize (serializedBytes wRaw) = .ok wRaw :=
  (C5_serialize_roundtrip wRaw 64 (by decide) (by decide) (by decide)).2.1

/-- Erase operations emitted for one sector: one exactly when the sector
matches and erase-before-write is configured. -/
lemma count_batchOps_erase (fo : Bool) (a j : Nat) :
    List.count (xor_flash_op.eraseOp j) (batchOpsForSector fo a) =
      if a = j ∧ fo = true then 1 else 0 := by
  rcases fo with - | -
  · by_cases ha : a = j <;> simp [batchOpsForSector, ha, List.count_cons]
  · by_cases ha : a = j <;> simp [batchOpsForSector, ha, List.count_cons]

/-- Write operations emitted for one sector: one exactly when it matches. -/
lemma count_batchOps_write (fo : Bool) (a j : Nat) :
    List.count (xor_flash_op.writeOp j) (batchOpsForSector fo a) =
      if a = j then 1 else 0 := by
  rcases fo with - | -
  · by_cases ha : a = j <;> simp [batchOpsForSector, ha, List.count_cons]
  · by_cases ha : a = j <;> simp [batchOpsForSector, ha, List.count_cons]

/-- A sector absent from the list receives no erase operation. -/
lemma count_flatMap_not_mem_erase (fo : Bool) (j : Nat) :
    ∀ l : List Nat, j ∉ l →
      List.count (xor_flash_op.eraseOp j) (l.flatMap (batchOpsForSector fo)) = 0
  | [], _ => by simp
  | a :: l, h => by
    have ha : ¬a = j := fun hc => h (hc ▸ List.mem_cons_self a l)
    simp only [List.flatMap_cons, List.count_append, count_batchOps_erase]
    rw [count_flatMap_not_mem_erase fo j l (fun hm => h (List.mem_cons_of_mem _ hm))]
    simp [ha]

/-- A sector absent from the list receives no write operation. -/
lemma count_flatMap_not_mem_write (fo : Bool) (j : Nat) :
    ∀ l : List Nat, j ∉ l →
      List.count (xor_flash_op.writeOp j) (l.flatMap (batchOpsForSector fo)) = 0
  | [], _ => by simp
  | a :: l, h => by
    have ha : ¬a = j := fun hc => h (hc ▸ List.mem_cons_self a l)
    simp only [List.flatMap_cons, List.count_append, count_batchOps_write]
    rw [count_flatMap_not_mem_write fo j l (fun hm => h (List.mem_cons_of_mem _ hm))]
    simp [ha]

/-- Over a duplicate-free sector list, each sector is erased at most once. -/
lemma count_flatMap_le_one_erase (fo : Bool) (j : Nat) :
    ∀ l : List Nat, l.Nodup →
      List.count (xor_flash_op.eraseOp j) (l.flatMap (batchOpsForSector fo)) ≤ 1 := by
  intro l
  induction l with
  | nil => intro _; simp
  | cons a l ih =>
    intro hnd
    simp only [List.flatMap_cons, List.count_append, count_batchOps_erase]
    by_cases ha : a = j
    · subst ha
      rw [count_flatMap_not_mem_erase fo a l (List.nodup_cons.mp hnd).1]
      by_cases hfo : fo = true <;> simp [hfo]
    · simp only [ha, false_and, if_false, Nat.zero_add]
      exact ih (List.nodup_cons.mp hnd).2

/-- Over a duplicate-free sector list, each sector is written at most once. -/
lemma count_flatMap_le_one_write (fo : Bool) (j : Nat) :
    ∀ l : List Nat, l.Nodup →
      List.count (xor_flash_op.writeOp j) (l.flatMap (batchOpsForSector fo)) ≤ 1 := by
  intro l
  induction l with
  | nil => intro _; simp
  | cons a l ih =>
    intro hnd
    simp only [List.flatMap_cons, List.count_append, count_batchOps_write]
    by_cases ha : a = j
    · subst ha
      rw [count_flatMap_not_mem_write fo a l (List.nodup_cons.mp hnd).1]
      simp
    · simp only [ha, if_false, Nat.zero_add]
      exact ih (List.nodup_cons.mp hnd).2

/-- C8: `xor_diff_flash_batch_apply` fails with `InvalidSize` when any
patch's implied offset range exceeds `flash_size`, and otherwise unions the
touched sectors across all patches before emitting device operations, so
every sector receives at most one erase and at most one write regardless of
how many patches touch it. -/
theorem C8_batch_union_and_size (ctx : xor_diff_context_t) (patches : List xor_patch_t)
    (flash : List Nat) (flash_size : Nat) :
    ((patches.any fun p => flash_size < p.header.data_size) = true →
      xor_diff_flash_batch_apply ctx patches flash flash_size =
        .error .XOR_DIFF_ERROR_INVALID_SIZE) ∧
    ∀ final ops, xor_diff_flash_batch_apply ctx patches flash flash_size = .ok (final, ops) →
      ∀ j, List.count (xor_flash_op.eraseOp j) ops ≤ 1 ∧
        List.count (xor_flash_op.writeOp j) ops ≤ 1 := by
  constructor
  · intro h
    rw [xor_diff_flash_batch_apply, if_pos h]
  · intro final ops h j
    rw [xor_diff_flash_batch_apply] at h
    by_cases hany : (patches.any fun p => flash_size < p.header.data_size) = true
    · rw [if_pos hany] at h
      exact absurd h (by simp)
    · rw [if_neg hany] at h
      cases hm : patches.mapM effectivePayload with
      | error e =>
        rw [hm] at h
        exact absurd h (by simp)
      | ok deltas =>
        simp only [hm] at h
        injection h with h2
        injection h2 with h3 h4
        rw [← h4]
        exact ⟨count_flatMap_le_one_erase _ j _ (List.nodup_dedup _),
          count_flatMap_le_one_write _ j _ (List.nodup_dedup _)⟩

/-- First batch-witness patch: four-byte delta touching sector 0. -/
def wQ1 : xor_patch_t :=
  { header := { version := 0, source_checksum := 0, target_checksum := 0,
                patch_size := 4, data_size := 4, compression_level := 0,
                flags := 0, reserved := 0 }
    patch_data := [1, 0, 0, 1] }

/-- Second batch-witness patch: four-byte delta overlapping sector 0. -/
def wQ2 : xor_patch_t :=
  { header := { version := 0, source_checksum := 0, target_checksum := 0,
                patch_size := 4, data_size := 4, compression_level := 0,
                flags := 0, reserved := 0 }
    patch_data := [0, 1, 0, 0] }

/-- C8 witness: two patches overlapping sector 0 produce exactly one erase
and one write for that sector. -/
theorem C8_witness :
    List.count (xor_flash_op.writeOp 0) [xor_flash_op.eraseOp 0, xor_flash_op.writeOp 0] ≤ 1 :=
  ((C8_batch_union_and_size wCtx [wQ1, wQ2] [0, 0, 0, 0, 0, 0, 0, 0] 8).2
    [1, 1, 0, 1, 0, 0, 0, 0] [xor_flash_op.eraseOp 0, xor_flash_op.writeOp 0]
    (by decide) 0).2

/-- Bridge: the heterogeneous XOR notation on `Nat` is `Nat.xor`. -/
lemma hxor_eq_natXor (a b : Nat) : a ^^^ b = Nat.xor a b := rfl

/-- XOR distributes over the split of a number into a low part below `2 ^ k`
and a high part. -/
lemma xor_add_mul_pow (k x y X Y : Nat) (hx : x < 2 ^ k) (hy : y < 2 ^ k) :
    (x + 2 ^ k * X) ^^^ (y + 2 ^ k * Y) = (x ^^^ y) + 2 ^ k * (X ^^^ Y) := by
  have hxy : x ^^^ y < 2 ^ k := Nat.xor_lt_two_pow hx hy
  apply Nat.eq_of_testBit_eq
  intro i
  rw [Nat.testBit_xor]
  rw [Nat.add_comm x _, Nat.add_comm y _, Nat.add_comm (x ^^^ y) _]
  rw [Nat.testBit_mul_pow_two_add X hx i, Nat.testBit_mul_pow_two_add Y hy i,
    Nat.testBit_mul_pow_two_add (X ^^^ Y) hxy i]
  by_cases hik : i < k
  · simp [hik, Nat.testBit_xor]
  · simp [hik, Nat.testBit_xor]

/-- Byte-level instance of `xor_add_mul_pow` at base 256. -/
lemma xor_byte_split (x y X Y : Nat) (hx : x < 256) (hy : y < 256) :
    Nat.xor (x + 256 * X) (y + 256 * Y) = Nat.xor x y + 256 * Nat.xor X Y := by
  have h256 : (256 : Nat) = 2 ^ 8 := by norm_num
  rw [h256]
  exact xor_add_mul_pow 8 x y X Y (h256 ▸ hx) (h256 ▸ hy)

/-- Bound on the little-endian decoding of a byte list. -/
lemma fromLE_lt (l : List Nat) (hl : isByteList l) : fromLE l < 256 ^ l.length := by
  induction l with
  | nil => simp [fromLE]
  | cons b rest ih =>
    have hb : b < 256 := hl b (List.mem_cons_self b rest)
    have hrest : fromLE rest < 256 ^ rest.length :=
      ih (fun x hx => hl x (List.mem_cons_of_mem _ hx))
    simp only [fromLE, List.length_cons, Nat.pow_succ]
    calc b + 256 * fromLE rest < 256 + 256 * fromLE rest := by omega
      _ = 256 * (fromLE rest + 1) := by ring
      _ ≤ 256 * 256 ^ rest.length := by
          exact Nat.mul_le_mul_left 256 hrest
      _ = 256 ^ rest.length * 256 := by ring

/-- Word-level XOR of two little-endian byte lists equals the byte-wise XOR. -/
lemma leBytes_xor : ∀ (a b : List Nat), a.length = b.length →
    isByteList a → isByteList b →
    leBytes a.length (Nat.xor (fromLE a) (fromLE b)) = List.zipWith Nat.xor a b := by
  intro a
  induction a with
  | nil =>
    intro b h _ _
    cases b with
    | nil => rfl
    | cons y b => simp at h
  | cons x a ih =>
    intro b h hba hbb
    cases b with
    | nil => simp at h
    | cons y b =>
      have hx : x < 256 := hba x (List.mem_cons_self x a)
      have hy : y < 256 := hbb y (List.mem_cons_self y b)
      have hxy : Nat.xor x y < 256 := by
        have h256 : (256 : Nat) = 2 ^ 8 := by norm_num
        rw [h256]
        exact Nat.xor_lt_two_pow (h256 ▸ hx) (h256 ▸ hy)
      show leBytes (a.length + 1) (Nat.xor (x + 256 * fromLE a) (y + 256 * fromLE b)) = _
      rw [xor_byte_split x y (fromLE a) (fromLE b) hx hy]
      simp only [leBytes, List.zipWith_cons_cons]
      congr 1
      · rw [Nat.add_mul_mod_self_left]
        exact Nat.mod_eq_of_lt hxy
      · rw [Nat.add_mul_div_left _ _ (by norm_num : (0:Nat) < 256),
          Nat.div_eq_of_lt hxy, Nat.zero_add]
        exact ih b (by simpa using h) (fun z hz => hba z (List.mem_cons_of_mem _ hz))
          (fun z hz => hbb z (List.mem_cons_of_mem _ hz))

/-- The 8-byte-block pass equals byte-wise XOR over the block region. -/
lemma fast_xor_blocks_eq : ∀ (k : Nat) (d s : List Nat),
    8 * k ≤ d.length → 8 * k ≤ s.length → isByteList d → isByteList s →
    xor_diff_fast_xor_blocks k d s =
      List.zipWith Nat.xor (d.take (8 * k)) (s.take (8 * k)) := by
  intro k
  induction k with
  | zero =>
    intro d s _ _ _ _
    simp [xor_diff_fast_xor_blocks]
  | succ k ih =>
    intro d s hd hs hbd hbs
    have h8d : 8 ≤ d.length := by omega
    have h8s : 8 ≤ s.length := by omega
    have hlen8 : (d.take 8).length = (s.take 8).length := by
      simp only [List.length_take]
      omega
    have hlen8d : (d.take 8).length = 8 := by
      simp only [List.length_take]
      omega
    rw [xor_diff_fast_xor_blocks]
    have hsplit_d : d.take (8 * (k + 1)) = d.take 8 ++ (d.drop 8).take (8 * k) := by
      rw [show 8 * (k + 1) = 8 + 8 * k by ring]
      exact List.take_add d 8 (8 * k)
    have hsplit_s : s.take (8 * (k + 1)) = s.take 8 ++ (s.drop 8).take (8 * k) := by
      rw [show 8 * (k + 1) = 8 + 8 * k by ring]
      exact List.take_add s 8 (8 * k)
    rw [hsplit_d, hsplit_s, List.zipWith_append _ _ _ _ _ hlen8]
    congr 1
    · have hkey := leBytes_xor (d.take 8) (s.take 8) hlen8
        (fun z hz => hbd z (List.mem_of_mem_take hz))
        (fun z hz => hbs z (List.mem_of_mem_take hz))
      rw [hlen8d] at hkey
      rw [hxor_eq_natXor]
      exact hkey
    · exact ih (d.drop 8) (s.drop 8)
        (by simp only [List.length_drop]; omega)
        (by simp only [List.length_drop]; omega)
        (fun z hz => hbd z (List.mem_of_mem_drop hz))
        (fun z hz => hbs z (List.mem_of_mem_drop hz))

/-- C10: the inline helper `xor_diff_fast_xor` (8-byte blocks, then the
remaining `size mod 8` bytes) produces exactly the same result as the naive
byte-wise loop `dest[i] ^= src[i]` for all `i < size`, for every size
including 0 and sizes not divisible by 8. -/
theorem C10_fast_xor_refines_naive (dest src : List Nat) (size : Nat)
    (hd : size ≤ dest.length) (hs : size ≤ src.length)
    (hbd : isByteList dest) (hbs : isByteList src) :
    xor_diff_fast_xor dest src size = naiveXorLoop dest src size := by
  have hsize : 8 * (size / 8) + size % 8 = size := Nat.div_add_mod size 8
  simp only [xor_diff_fast_xor, naiveXorLoop]
  rw [fast_xor_blocks_eq (size / 8) dest src (by omega) (by omega) hbd hbs]
  have hsplit_d : dest.take size =
      dest.take (8 * (size / 8)) ++ (dest.drop (8 * (size / 8))).take (size % 8) := by
    conv_lhs => rw [← hsize]
    exact List.take_add _ _ _
  have hsplit_s : src.take size =
      src.take (8 * (size / 8)) ++ (src.drop (8 * (size / 8))).take (size % 8) := by
    conv_lhs => rw [← hsize]
    exact List.take_add _ _ _
  have hdrop : dest.drop (8 * (size / 8) + size % 8) = dest.drop size := by
    rw [hsize]
  rw [hsplit_d, hsplit_s, hdrop]
  have hlenB : (dest.take (8 * (size / 8))).length = (src.take (8 * (size / 8))).length := by
    simp only [List.length_take]
    omega
  rw [List.zipWith_append _ _ _ _ _ hlenB]

/-- C10 witness: an 11-byte buffer pair, exercising one full 8-byte block
plus a 3-byte remainder. -/
theorem C10_witness :
    xor_diff_fast_xor [1, 2, 3, 4, 5, 6, 7, 8, 9, 10, 250]
        [255, 254, 253, 252, 251, 250, 249, 248, 247, 246, 245] 11 =
      naiveXorLoop [1, 2, 3, 4, 5, 6, 7, 8, 9, 10, 250]
        [255, 254, 253, 252, 251, 250, 249, 248, 247, 246, 245] 11 :=
  C10_fast_xor_refines_naive _ _ 11 (by decide) (by decide) (by decide) (by decide)
